import Mathlib

/-!
Verification of the FastEstimator Network execution engine
(`fastestimator/network.py`): dependency analysis over op lists with
Schedulers, per-batch execution (`run_step` for the TensorFlow and the
PyTorch strategies), Network construction checks, and model/optimizer
registration (`build` / `_fe_compile`).

Python values are embedded shallowly: a key is `Option String` (Python
`None` is the "no key" sentinel `none`); the `inputs`/`outputs`
declaration of an op is `PyKeys` (Python `None`, a plain string, or a
list of keys); Python sets of keys are `Finset Key`; fallible code
returns `Except String`.
-/

set_option maxHeartbeats 1000000

abbrev Key := Option String

/-- A Python value declaring input or output keys of an op: `None`, a plain
string, or a list of keys. -/
inductive PyKeys where
  | pyNone : PyKeys
  | pyStr (s : String) : PyKeys
  | pyList (ks : List Key) : PyKeys
deriving DecidableEq, Repr

/-- Modelled from the spec: the `to_list` utility (from
`fastestimator.util.util`, not under `src/`) wraps a non-list value into a
one-element list and keeps a list as it is; the sentinel stripping
`input_keys -= {None}` in the source shows that `to_list(None)` yields
`[None]`. -/
def to_list : PyKeys → List Key
  | .pyNone => [none]
  | .pyStr s => [some s]
  | .pyList ks => ks

/-- Python truthiness of an `inputs`/`outputs` declaration: `None`, the
empty string and the empty list are falsy. -/
def pyTruthy : PyKeys → Bool
  | .pyNone => false
  | .pyStr s => s ≠ ""
  | .pyList ks => ks ≠ []

/-- The value bound to `state["tape"]`: a real gradient tape, the dummy
`NonContext()` object (Torch path), or Python `None` (the value a
`NonContext` scope binds in a `with ... as` clause). -/
inductive TapeVal where
  | gradientTape : TapeVal
  | nonContext : TapeVal
  | noneVal : TapeVal
deriving DecidableEq, Repr

/-- Python data values flowing between ops: `None`, an opaque tensor-like
scalar, or a list. -/
inductive PyData where
  | pyNone : PyData
  | pval (n : Nat) : PyData
  | plist (l : List PyData) : PyData

/-- The `state` dictionary of one `run_step` call: the `mode` entry, the
epoch used for Scheduler resolution, and the (initially absent) `tape`
entry. -/
structure PyState where
  mode : String
  epoch : Nat
  tape : Option TapeVal
deriving DecidableEq, Repr

inductive ModelBackend where
  | tensorflow : ModelBackend
  | pytorch : ModelBackend
  | other : ModelBackend
deriving DecidableEq, Repr

/-- A trainable model reference as seen by the engine: its backend and an
identity (models live in Python sets). -/
structure FEModel where
  backend : ModelBackend
  ident : Nat
deriving DecidableEq, Repr

/-- A TensorOp: declared input keys, output keys, mode set (`none` = all
modes), the model attached when the op is a `ModelOp`/`UpdateOp`
(`none` otherwise), and the `forward` computation. -/
structure TensorOp where
  inputs : PyKeys
  outputs : PyKeys
  mode : Option (List String)
  model : Option FEModel
  forward : PyData → PyState → PyData

/-- An element of a Network op list: a plain op, or a Scheduler carrying
its `epoch_dict` values (`none` entries are epochs with no op). -/
inductive NetOp where
  | basic (op : TensorOp)
  | sched (epoch_dict : List (Option TensorOp))

/-- Error message of a Python `IndexError` on `keys_lists[0]`. -/
def indexErrorMsg : String := "IndexError: list index out of range"

/-- Error message of a Python `TypeError` on `set.update(None)`. -/
def typeErrorMsg : String := "TypeError: NoneType object is not iterable"

/-- The one-character strings obtained by iterating a Python string, as
keys: `set.update("ab")` inserts `"a"` and `"b"`. -/
def charKeys (s : String) : List Key := s.data.map (fun c => some (String.mk [c]))

/-- Python `set.update(x)` on the raw (not `to_list`-normalised) outputs
value `x`: iterating `None` raises `TypeError`, iterating a string adds its
characters, iterating a list adds its elements. -/
def setUpdateRaw (P : Finset Key) : PyKeys → Except String (Finset Key)
  | .pyNone => .error typeErrorMsg
  | .pyStr s => .ok (P ∪ (charKeys s).toFinset)
  | .pyList ks => .ok (P ∪ ks.toFinset)

/-- The input keys of one `to_list`-normalised key list that are not yet in
the produced set (`set(key for key in keys_list if not key in produced_keys)`). -/
def newInputKeys (ks : List Key) (P : Finset Key) : Finset Key :=
  (ks.filter (fun k => decide (k ∉ P))).toFinset

/-- One iteration of the loop of `BaseNetwork.get_effective_input_keys`:
the state is `(input_keys, produced_keys)`. -/
def geikStep (st : Finset Key × Finset Key) : NetOp → Except String (Finset Key × Finset Key)
  | .basic op =>
      .ok (st.1 ∪ newInputKeys (to_list op.inputs) st.2,
           st.2 ∪ (to_list op.outputs).toFinset)
  | .sched ed =>
      let variants := ed.filterMap id
      let I := (variants.map (fun v => to_list v.inputs)).foldl
        (fun acc ks => acc ∪ newInputKeys ks st.2) st.1
      match variants.map (fun v => v.outputs) with
      | [] => .error indexErrorMsg
      | l0 :: restLs =>
          if (l0 :: restLs).all (fun x => x == l0) then
            match setUpdateRaw st.2 l0 with
            | .error e => .error e
            | .ok P => .ok (I, P)
          else .ok (I, st.2)

/-- The loop of `BaseNetwork.get_effective_input_keys` over the op list. -/
def geikFold (ops : List NetOp) (st : Finset Key × Finset Key) :
    Except String (Finset Key × Finset Key) :=
  match ops with
  | [] => .ok st
  | nop :: rest =>
      match geikStep st nop with
      | .error e => .error e
      | .ok st2 => geikFold rest st2

/-- Embedding of `BaseNetwork.get_effective_input_keys`: run the loop from
empty `input_keys`/`produced_keys`, then strip the sentinel
(`input_keys -= {None}`). -/
def get_effective_input_keys (ops : List NetOp) : Except String (Finset Key) :=
  match geikFold ops (∅, ∅) with
  | .error e => .error e
  | .ok st => .ok (st.1 \ {none})

/-- Embedding of `BaseNetwork.get_all_output_keys`: union of every op's
(or every Scheduler epoch-variant's) `to_list`-normalised output keys,
sentinel stripped. -/
def get_all_output_keys (ops : List NetOp) : Finset Key :=
  (ops.foldl (fun acc nop =>
    match nop with
    | .basic op => acc ∪ (to_list op.outputs).toFinset
    | .sched ed => (ed.filterMap id).foldl
        (fun a v => a ∪ (to_list v.outputs).toFinset) acc) ∅) \ {none}

/-! ## Batch dictionaries and the ChainMap overlay -/

abbrev PyDict := Key → Option PyData

def emptyDict : PyDict := fun _ => none

def PyDict.insert (d : PyDict) (k : Key) (v : PyData) : PyDict :=
  fun k2 => if k2 = k then some v else d k2

/-- The `collections.ChainMap({}, batch)` overlay used by the TF paths:
reads fall through from the overlay to the base, writes go to the overlay
only (documented `ChainMap` behaviour). A plain Python dict is the special
case with an empty base. -/
structure CM where
  overlay : PyDict
  base : PyDict

def CM.get (c : CM) (k : Key) : Option PyData :=
  match c.overlay k with
  | some v => some v
  | none => c.base k

def CM.insert (c : CM) (k : Key) (v : PyData) : CM :=
  ⟨c.overlay.insert k v, c.base⟩

/-! ## Key-based read/write helpers and mode filtering

These live in `fastestimator/op/__init__.py`, which is not part of the
source tree given here; they are modelled from the spec. -/

/-- Modelled from the spec: key lookup half of `get_inputs_by_op` (from
`fastestimator.op`, not under `src/`) — resolve declared input keys against
the batch, a missing key resolving to the "no key" sentinel. -/
def get_inputs_by_key (store : CM) (keys : PyKeys) : PyData :=
  match keys with
  | .pyStr s => (store.get (some s)).getD .pyNone
  | .pyList ks => .plist (ks.map (fun k => (store.get k).getD .pyNone))
  | .pyNone => .pyNone

/-- Modelled from the spec: `get_inputs_by_op` (from `fastestimator.op`,
not under `src/`) — resolve an op's declared input keys against the batch,
falling back to the prior op's raw output when no input key is declared. -/
def get_inputs_by_op (op : TensorOp) (store : CM) (data : PyData) : PyData :=
  if pyTruthy op.inputs then get_inputs_by_key store op.inputs else data

/-- Error message of a Python `TypeError` when zipping output keys with a
non-iterable result. -/
def zipTypeErrorMsg : String := "TypeError: zip argument is not iterable"

/-- Modelled from the spec: `write_outputs_by_key` (from
`fastestimator.op`, not under `src/`) — write a result back under a single
declared key, or its indexed parts under a declared key list, matching
declared output-key order. -/
def write_outputs_by_key (store : CM) (data : PyData) (keys : PyKeys) :
    Except String CM :=
  match keys with
  | .pyStr s => .ok (store.insert (some s) data)
  | .pyList ks =>
      match data with
      | .plist l => .ok ((ks.zip l).foldl (fun c p => c.insert p.1 p.2) store)
      | _ => .error zipTypeErrorMsg
  | .pyNone => .ok store

/-- Modelled from the spec: mode membership — an op participates iff its
mode set is empty/`None` or contains the current mode. -/
def modeMatch (m : Option (List String)) (mode : String) : Bool :=
  match m with
  | none => true
  | some l => l.isEmpty || l.contains mode

/-- Modelled from the spec: Scheduler resolution — a Scheduler yields its
`epoch_dict` entry for the current epoch (absent outside the dict), a
plain op yields itself. -/
def resolveAtEpoch (nop : NetOp) (epoch : Nat) : Option TensorOp :=
  match nop with
  | .basic op => some op
  | .sched ed => ed.getD epoch none

/-- Modelled from the spec: `get_ops_by_mode` (from `fastestimator.op`,
not under `src/`) — resolve Schedulers to their concrete op for the current
epoch and filter by mode membership, returning a flat ordered op list. -/
def get_ops_by_mode (ops : List NetOp) (epoch : Nat) (mode : String) :
    List TensorOp :=
  ops.foldr (fun nop acc =>
    match resolveAtEpoch nop epoch with
    | some op => if modeMatch op.mode mode then op :: acc else acc
    | none => acc) []

/-! ## Per-batch execution -/

/-- The loop body of `BaseNetwork._forward_batch`, threading the prior
op's raw output (`data`, initially Python `None`). -/
def forwardBatchAux (batch : CM) (data : PyData) (state : PyState) :
    List TensorOp → Except String CM
  | [] => .ok batch
  | op :: rest =>
      let d1 := get_inputs_by_op op batch data
      let d2 := op.forward d1 state
      match (if pyTruthy op.outputs then write_outputs_by_key batch d2 op.outputs
             else .ok batch) with
      | .error e => .error e
      | .ok b2 => forwardBatchAux b2 d2 state rest

/-- Embedding of `BaseNetwork._forward_batch`. -/
def forward_batch (batch : CM) (state : PyState) (ops : List TensorOp) :
    Except String CM :=
  forwardBatchAux batch PyData.pyNone state ops

/-- The extraction loop
`for key in effective_outputs: if key in batch: prediction[key] = batch[key]`,
with a per-value post-transfer (`.to("cpu")` on the Torch path, identity
elsewhere). -/
def extractWith (get : Key → Option PyData) (eo : List Key)
    (post : PyData → PyData) : PyDict :=
  eo.foldl (fun pred k =>
    match get k with
    | some v => pred.insert k (post v)
    | none => pred) emptyDict

/-- What one `_forward_step` call returns, together with the observable
final state of the mutable `state` dict and of the working batch. -/
structure StepResult where
  prediction : PyDict
  state : PyState
  workingBatch : CM

/-- The fresh working batch of `run_step`:
`for key in effective_inputs: if key in batch: new_batch[key] = batch[key]`. -/
def mkNewBatch (effective_inputs : Finset Key) (batch : PyDict) : PyDict :=
  fun k => if k ∈ effective_inputs then batch k else none

namespace TorchNetwork

/-- Embedding of `TorchNetwork._forward_step`: sets `state["tape"]` to the
dummy `NonContext()` (and never deletes it), moves batch values to the
device when one is available, runs the ops, and extracts the effective
outputs moved back to cpu. The device transfer functions are opaque
parameters. -/
def _forward_step (batch : PyDict) (state : PyState) (ops : List TensorOp)
    (effective_outputs : List Key) (cuda : Bool)
    (toDev toCpu : PyData → PyData) : Except String StepResult :=
  let state1 := { state with tape := some TapeVal.nonContext }
  let b1 : PyDict := if cuda then fun k => (batch k).map toDev else batch
  match forward_batch ⟨b1, emptyDict⟩ state1 ops with
  | .error e => .error e
  | .ok cm1 =>
      .ok ⟨extractWith cm1.get effective_outputs
             (fun v => if cuda then toCpu v else v),
           state1, cm1⟩

/-- Embedding of `TorchNetwork.run_step`: filter the incoming batch to the
effective inputs that are present, resolve the active ops for the current
mode, and run `_forward_step`. -/
def run_step (ops : List NetOp) (effective_inputs : Finset Key)
    (effective_outputs : List Key) (batch : PyDict) (state : PyState)
    (cuda : Bool) (toDev toCpu : PyData → PyData) : Except String StepResult :=
  let active := get_ops_by_mode ops state.epoch state.mode
  _forward_step (mkNewBatch effective_inputs batch) state active
    effective_outputs cuda toDev toCpu

end TorchNetwork

namespace TFNetwork

/-- Embedding of `TFNetwork._forward_step_eager`: wraps the working batch
in `ChainMap({}, batch)`, binds `state["tape"]` to the gradient tape in
train mode (to the `None` a `NonContext` scope binds otherwise), runs the
ops, deletes `state["tape"]`, and extracts the effective outputs. -/
def _forward_step_eager (batch : PyDict) (state : PyState)
    (ops : List TensorOp) (effective_outputs : List Key) :
    Except String StepResult :=
  let tape := if state.mode = "train" then TapeVal.gradientTape else TapeVal.noneVal
  let state1 := { state with tape := some tape }
  match forward_batch ⟨emptyDict, batch⟩ state1 ops with
  | .error e => .error e
  | .ok cm1 =>
      .ok ⟨extractWith cm1.get effective_outputs id,
           { state1 with tape := none }, cm1⟩

/-- Embedding of `TFNetwork._forward_step_static`: the same body as
`_forward_step_eager` (the `@tf.function` ahead-of-time compilation is
modelled as semantics-preserving), called with `to_list(effective_outputs)`
instead of the set itself. -/
def _forward_step_static (batch : PyDict) (state : PyState)
    (ops : List TensorOp) (effective_outputs : List Key) :
    Except String StepResult :=
  let tape := if state.mode = "train" then TapeVal.gradientTape else TapeVal.noneVal
  let state1 := { state with tape := some tape }
  match forward_batch ⟨emptyDict, batch⟩ state1 ops with
  | .error e => .error e
  | .ok cm1 =>
      .ok ⟨extractWith cm1.get effective_outputs id,
           { state1 with tape := none }, cm1⟩

/-- Embedding of `TFNetwork.run_step`: filter the incoming batch to the
effective inputs that are present, resolve the active ops, and dispatch to
the eager path when `debug` and to the compiled path otherwise. -/
def run_step (ops : List NetOp) (effective_inputs : Finset Key)
    (effective_outputs : List Key) (batch : PyDict) (state : PyState)
    (debug : Bool) : Except String StepResult :=
  let active := get_ops_by_mode ops state.epoch state.mode
  let new_batch := mkNewBatch effective_inputs batch
  if debug then _forward_step_eager new_batch state active effective_outputs
  else _forward_step_static new_batch state active effective_outputs

end TFNetwork

/-! ## Network construction -/

/-- The model set gathered by `Network(ops)`: models of `ModelOp`/`UpdateOp`
ops, directly or inside a Scheduler epoch-variant (an op carries a model
exactly when it is a `ModelOp`/`UpdateOp`). -/
def collectModels (ops : List NetOp) : Finset FEModel :=
  ops.foldl (fun acc nop =>
    match nop with
    | .sched ed => acc ∪ (ed.filterMap (fun o => o.bind (fun v => v.model))).toFinset
    | .basic op =>
        match op.model with
        | some m => insert m acc
        | none => acc) ∅

/-- The framework tags gathered by `Network(ops)`: `tensorflow` models add
one tag, `pytorch` models the other, anything else adds nothing. -/
def frameworks (ms : Finset FEModel) : Finset ModelBackend :=
  (ms.image FEModel.backend).filter (fun b => b ≠ ModelBackend.other)

def noModelMsg : String := "cannot find model in Network ops"

def mixedFrameworkMsg : String :=
  "please make sure either tensorflow or torch model is used in network"

/-- A constructed Network instance: which strategy was selected and the
derived key sets (`effective_outputs` starts empty and is not tracked
here). -/
structure NetworkInst where
  isTF : Bool
  effective_inputs : Finset Key
  all_outputs : Finset Key
  models : Finset FEModel

/-- Embedding of the `Network(ops)` factory: assert a model exists, assert
exactly one framework, then build the backend-specific network, whose
`BaseNetwork.__init__` runs the dependency analyzer. -/
def Network (ops : List NetOp) : Except String NetworkInst :=
  let models := collectModels ops
  if models = ∅ then .error noModelMsg
  else
    let fw := frameworks models
    if fw.card = 1 then
      match get_effective_input_keys ops with
      | .error e => .error e
      | .ok ei =>
          .ok ⟨ModelBackend.tensorflow ∈ fw, ei, get_all_output_keys ops, models⟩
    else .error mixedFrameworkMsg

/-! ## Model/optimizer registration (`build` and `_fe_compile`) -/

/-- An optimizer instance of one backend. -/
inductive OptimInst where
  | tfOpt (name : String) : OptimInst
  | torchOpt (name : String) : OptimInst
deriving DecidableEq, Repr

/-- The `optimizer` argument of `build`: a registry name or an instance. -/
inductive OptimArg where
  | byName (s : String) : OptimArg
  | byInst (o : OptimInst) : OptimArg
deriving DecidableEq, Repr

/-- A trainable model as `build` sees it: its backend and the two fields
`_fe_compile` mutates (`optimizer`, `fe_compiled`). -/
structure BuildModel where
  backend : ModelBackend
  optimizer : Option OptimInst
  fe_compiled : Bool
deriving DecidableEq, Repr

def optimizerRegistry : List String :=
  ["adadelta", "adagrad", "adam", "adamax", "rmsprop", "sgd"]

def unrecognizedModelMsg : String := "unrecognized model format"

def keyErrorMsg : String := "KeyError: unknown optimizer name"

def tfOptAssertMsg : String :=
  "AssertionError: optimizer is not a tf.optimizers.Optimizer"

def torchOptAssertMsg : String :=
  "AssertionError: optimizer is not a torch.optim.Optimizer"

def lenAssertMsg : String := "AssertionError: model and optimizer lengths differ"

/-- Embedding of `_fe_compile`: determine the model framework, resolve a
registry name to a backend-appropriate optimizer, assert an instance
matches the framework, and only then mutate the model (attach the
optimizer, set the compiled flag). -/
def _fe_compile (m : BuildModel) (o : OptimArg) : Except String BuildModel :=
  if m.backend = ModelBackend.other then .error unrecognizedModelMsg
  else
    let resolved : Except String OptimInst :=
      match o with
      | .byName s =>
          if s ∈ optimizerRegistry then
            .ok (if m.backend = ModelBackend.tensorflow then .tfOpt s else .torchOpt s)
          else .error keyErrorMsg
      | .byInst oi => .ok oi
    match resolved with
    | .error e => .error e
    | .ok oi =>
        if m.backend = ModelBackend.tensorflow then
          match oi with
          | .tfOpt _ => .ok { m with optimizer := some oi, fe_compiled := true }
          | .torchOpt _ => .error tfOptAssertMsg
        else
          match oi with
          | .torchOpt _ => .ok { m with optimizer := some oi, fe_compiled := true }
          | .tfOpt _ => .error torchOptAssertMsg

/-- The loop of `build` over `zip(models, optimizers)`: each successfully
compiled model is mutated in place; on the first failure the remaining
models (the failing one included) are left untouched. The returned list is
the post-call state of the caller's model objects, paired with the error
raised, if any. -/
def buildLoop : List BuildModel → List OptimArg → List BuildModel × Option String
  | [], _ => ([], none)
  | ms, [] => (ms, none)
  | m :: ms, o :: os =>
      match _fe_compile m o with
      | .error e => (m :: ms, some e)
      | .ok m2 =>
          let r := buildLoop ms os
          (m2 :: r.1, r.2)

/-- Embedding of `build`: assert equal lengths, then compile each pair in
order. -/
def build (models : List BuildModel) (optimizers : List OptimArg) :
    List BuildModel × Option String :=
  if models.length = optimizers.length then buildLoop models optimizers
  else (models, some lenAssertMsg)

/-! ## Concrete instances used to exercise the theorems -/

def idFwd : PyData → PyState → PyData := fun d _ => d

def vAW : TensorOp := ⟨.pyStr "x", .pyList [some "y"], none, none, idFwd⟩

def vBW : TensorOp := ⟨.pyStr "x2", .pyList [some "y"], none, none, idFwd⟩

def vDW : TensorOp := ⟨.pyStr "x2", .pyList [some "q"], none, none, idFwd⟩

def opCW : TensorOp := ⟨.pyStr "y", .pyNone, none, none, idFwd⟩

def edAgreeW : List (Option TensorOp) := [some vAW, some vBW]

def edDisW : List (Option TensorOp) := [some vAW, some vDW]

def vS1W : TensorOp := ⟨.pyNone, .pyStr "ab", none, none, idFwd⟩

def vS2W : TensorOp := ⟨.pyNone, .pyStr "ab", none, none, idFwd⟩

def edStrW : List (Option TensorOp) := [some vS1W, some vS2W]

def opAbW : TensorOp := ⟨.pyStr "ab", .pyNone, none, none, idFwd⟩

def mTFW : FEModel := ⟨.tensorflow, 0⟩

def mPTW : FEModel := ⟨.pytorch, 1⟩

def opNoModelW : TensorOp := ⟨.pyStr "x", .pyStr "y", none, none, idFwd⟩

def opMTFW : TensorOp := ⟨.pyStr "x", .pyStr "y", none, some mTFW, idFwd⟩

def opMPTW : TensorOp := ⟨.pyStr "y", .pyStr "z", none, some mPTW, idFwd⟩

def opWriteW : TensorOp := ⟨.pyNone, .pyStr "y", none, none, fun _ _ => .pval 5⟩

def state0W : PyState := ⟨"eval", 0, none⟩

/-- The `tape` entry of the `state` dict after a forward step (absent on
error). -/
def stateTapeOf (r : Except String StepResult) : Option TapeVal :=
  match r with
  | .ok sr => sr.state.tape
  | .error _ => none

/-- A model paired with an optimizer instance of the other backend. -/
def mismatch (m : BuildModel) (o : OptimArg) : Bool :=
  match m.backend, o with
  | .tensorflow, .byInst (.torchOpt _) => true
  | .pytorch, .byInst (.tfOpt _) => true
  | _, _ => false

def batchXW : PyDict := PyDict.insert emptyDict (some "x") (PyData.pval 1)

def exceptIsOk {ε α : Type} : Except ε α → Bool
  | .ok _ => true
  | .error _ => false

def tfModelW : BuildModel := ⟨.tensorflow, none, false⟩

def ptModelW : BuildModel := ⟨.pytorch, none, false⟩

instance {ε α : Type} [DecidableEq ε] [DecidableEq α] : DecidableEq (Except ε α) := fun a b =>
  match a, b with
  | .ok x, .ok y =>
      if h : x = y then .isTrue (by rw [h])
      else .isFalse (by intro hc; cases hc; exact h rfl)
  | .error x, .error y =>
      if h : x = y then .isTrue (by rw [h])
      else .isFalse (by intro hc; cases hc; exact h rfl)
  | .ok _, .error _ => .isFalse (by intro hc; cases hc)
  | .error _, .ok _ => .isFalse (by intro hc; cases hc)

/-- The input keys a Scheduler contributes beyond the running set, given
the produced set `P` at that point. -/
def schedNewInputs (ed : List (Option TensorOp)) (P : Finset Key) : Finset Key :=
  ((ed.filterMap id).map (fun v => to_list v.inputs)).foldl
    (fun acc ks => acc ∪ newInputKeys ks P) ∅

/-- Reference reading of the spec sentence for Scheduler-free op lists: the
input keys of each op that are not yet produced, accumulating produced
output keys in declaration order. -/
def effAux : List TensorOp → Finset Key → Finset Key
  | [], _ => ∅
  | op :: rest, P =>
      newInputKeys (to_list op.inputs) P ∪
        effAux rest (P ∪ (to_list op.outputs).toFinset)

/-- The produced set after a Scheduler-free op list. -/
def prodAux : List TensorOp → Finset Key → Finset Key
  | [], P => P
  | op :: rest, P => prodAux rest (P ∪ (to_list op.outputs).toFinset)


/-! ## Lemmas about the dependency analyzer -/

lemma mem_newInputKeys (k : Key) (ks : List Key) (P : Finset Key) :
    k ∈ newInputKeys ks P ↔ k ∈ ks ∧ k ∉ P := by
  simp [newInputKeys, List.mem_filter]

lemma foldl_union_start {α : Type} (f : α → Finset Key) (l : List α)
    (A B : Finset Key) :
    l.foldl (fun acc x => acc ∪ f x) (A ∪ B) = A ∪ l.foldl (fun acc x => acc ∪ f x) B := by
  induction l generalizing B with
  | nil => rfl
  | cons h t ih => simp only [List.foldl_cons, Finset.union_assoc, ih]

lemma foldl_union_init {α : Type} (f : α → Finset Key) (l : List α)
    (A : Finset Key) :
    l.foldl (fun acc x => acc ∪ f x) A = A ∪ l.foldl (fun acc x => acc ∪ f x) ∅ := by
  have h := foldl_union_start f l A ∅
  rwa [Finset.union_empty] at h

lemma mem_foldl_union {α : Type} (f : α → Finset Key) (l : List α)
    (A : Finset Key) (k : Key) :
    k ∈ l.foldl (fun acc x => acc ∪ f x) A ↔ k ∈ A ∨ ∃ x ∈ l, k ∈ f x := by
  induction l generalizing A with
  | nil => simp
  | cons h t ih =>
      simp only [List.foldl_cons, ih, Finset.mem_union, List.mem_cons]
      constructor
      · rintro ((hA | hf) | ⟨x, hx, hfx⟩)
        · exact Or.inl hA
        · exact Or.inr ⟨h, Or.inl rfl, hf⟩
        · exact Or.inr ⟨x, Or.inr hx, hfx⟩
      · rintro (hA | ⟨x, (rfl | hx), hfx⟩)
        · exact Or.inl (Or.inl hA)
        · exact Or.inl (Or.inr hfx)
        · exact Or.inr ⟨x, hx, hfx⟩

lemma mem_schedNewInputs (ed : List (Option TensorOp)) (P : Finset Key) (k : Key) :
    k ∈ schedNewInputs ed P ↔
      ∃ v ∈ ed.filterMap id, k ∈ to_list v.inputs ∧ k ∉ P := by
  simp only [schedNewInputs, mem_foldl_union, Finset.not_mem_empty, false_or,
    List.mem_map]
  constructor
  · rintro ⟨ks, ⟨v, hv, rfl⟩, hk⟩
    rw [mem_newInputKeys] at hk
    exact ⟨v, hv, hk⟩
  · rintro ⟨v, hv, hk⟩
    exact ⟨to_list v.inputs, ⟨v, hv, rfl⟩, (mem_newInputKeys _ _ _).mpr hk⟩

lemma geikStep_sched_empty (ed : List (Option TensorOp)) (I P : Finset Key)
    (h : ed.filterMap id = []) :
    geikStep (I, P) (.sched ed) = .error indexErrorMsg := by
  simp [geikStep, h]

lemma geikStep_sched_agree (ed : List (Option TensorOp)) (I P P2 : Finset Key)
    (v : TensorOp) (vs : List TensorOp) (L : PyKeys)
    (hv : ed.filterMap id = v :: vs)
    (houts : ∀ w ∈ ed.filterMap id, w.outputs = L)
    (hupd : setUpdateRaw P L = .ok P2) :
    geikStep (I, P) (.sched ed) = .ok (I ∪ schedNewInputs ed P, P2) := by
  have hvL : v.outputs = L := houts v (by rw [hv]; exact List.mem_cons_self v vs)
  subst hvL
  have hall : ((v.outputs :: vs.map (fun w => w.outputs)).all
      (fun x => x == v.outputs)) = true := by
    rw [List.all_eq_true]
    intro x hx
    rcases List.mem_cons.mp hx with rfl | hx2
    · exact beq_self_eq_true _
    · rcases List.mem_map.mp hx2 with ⟨w, hw, rfl⟩
      have := houts w (by rw [hv]; exact List.mem_cons_of_mem v hw)
      rw [this]
      exact beq_self_eq_true _
  simp only [geikStep, schedNewInputs, hv, List.map_cons, hall, if_true, hupd]
  rw [foldl_union_init]

lemma geikStep_sched_disagree (ed : List (Option TensorOp)) (I P : Finset Key)
    (va vb : TensorOp)
    (hva : va ∈ ed.filterMap id) (hvb : vb ∈ ed.filterMap id)
    (hne : va.outputs ≠ vb.outputs) :
    geikStep (I, P) (.sched ed) = .ok (I ∪ schedNewInputs ed P, P) := by
  rcases hlv : ed.filterMap id with _ | ⟨v, vs⟩
  · rw [hlv] at hva; cases hva
  · have hall : ((v.outputs :: vs.map (fun w => w.outputs)).all
        (fun x => x == v.outputs)) = false := by
      by_contra hc
      have htrue : ((v.outputs :: vs.map (fun w => w.outputs)).all
          (fun x => x == v.outputs)) = true := by
        cases hb : ((v.outputs :: vs.map (fun w => w.outputs)).all
            (fun x => x == v.outputs))
        · exact absurd hb hc
        · rfl
      rw [List.all_eq_true] at htrue
      have hmem : ∀ w ∈ ed.filterMap id, w.outputs = v.outputs := by
        intro w hw
        rw [hlv] at hw
        rcases List.mem_cons.mp hw with rfl | hw2
        · rfl
        · have := htrue (w.outputs) (List.mem_cons_of_mem _ (List.mem_map_of_mem _ hw2))
          exact eq_of_beq this
      exact hne ((hmem va hva).trans (hmem vb hvb).symm)
    simp only [geikStep, schedNewInputs, hlv, List.map_cons, hall, Bool.false_eq_true, if_false]
    rw [foldl_union_init]

lemma geikStep_sched_ok_shape (ed : List (Option TensorOp)) (I P I2 P2 : Finset Key)
    (h : geikStep (I, P) (.sched ed) = .ok (I2, P2)) :
    I2 = I ∪ schedNewInputs ed P ∧ P ⊆ P2 := by
  simp only [geikStep] at h
  rcases hlv : (ed.filterMap id).map (fun v => v.outputs) with _ | ⟨l0, restLs⟩
  · rw [hlv] at h; cases h
  · rw [hlv] at h
    dsimp only at h
    have hI : List.foldl (fun acc ks => acc ∪ newInputKeys ks P) I
        ((ed.filterMap id).map (fun v => to_list v.inputs)) = I ∪ schedNewInputs ed P := by
      rw [schedNewInputs, foldl_union_init]
    by_cases hall : ((l0 :: restLs).all fun x => x == l0) = true
    · rw [if_pos hall] at h
      rcases hupd : setUpdateRaw P l0 with e | Pn
      · rw [hupd] at h; cases h
      · rw [hupd] at h
        injection h with h2
        have hI2 : I2 = I ∪ schedNewInputs ed P := by
          have := congrArg Prod.fst h2
          simp at this
          rw [← this, hI]
        have hP2 : P2 = Pn := by
          have := congrArg Prod.snd h2
          simpa using this.symm
        refine ⟨hI2, ?_⟩
        rw [hP2]
        cases l0 with
        | pyNone => cases hupd
        | pyStr s =>
            simp only [setUpdateRaw] at hupd
            injection hupd with h3
            rw [← h3]; exact Finset.subset_union_left
        | pyList ks =>
            simp only [setUpdateRaw] at hupd
            injection hupd with h3
            rw [← h3]; exact Finset.subset_union_left
    · rw [if_neg hall] at h
      injection h with h2
      have hI2 : I2 = I ∪ schedNewInputs ed P := by
        have := congrArg Prod.fst h2
        simp at this
        rw [← this, hI]
      have hP2 : P2 = P := by
        have := congrArg Prod.snd h2
        simpa using this.symm
      exact ⟨hI2, by rw [hP2]⟩

lemma geikStep_basic_eq (op : TensorOp) (I P : Finset Key) :
    geikStep (I, P) (.basic op) =
      .ok (I ∪ newInputKeys (to_list op.inputs) P, P ∪ (to_list op.outputs).toFinset) := rfl

lemma geikStep_mono (nop : NetOp) (I P I2 P2 : Finset Key)
    (h : geikStep (I, P) nop = .ok (I2, P2)) : I ⊆ I2 ∧ P ⊆ P2 := by
  cases nop with
  | basic op =>
      rw [geikStep_basic_eq] at h
      injection h with h2
      injection h2 with hI hP
      rw [← hI, ← hP]
      exact ⟨Finset.subset_union_left, Finset.subset_union_left⟩
  | sched ed =>
      rcases geikStep_sched_ok_shape ed I P I2 P2 h with ⟨hI, hP⟩
      rw [hI]
      exact ⟨Finset.subset_union_left, hP⟩

lemma geikStep_excl (nop : NetOp) (k : Key) (I P I2 P2 : Finset Key)
    (hkP : k ∈ P) (hkI : k ∉ I)
    (h : geikStep (I, P) nop = .ok (I2, P2)) : k ∉ I2 ∧ k ∈ P2 := by
  have hP2 : k ∈ P2 := (geikStep_mono nop I P I2 P2 h).2 hkP
  refine ⟨?_, hP2⟩
  cases nop with
  | basic op =>
      rw [geikStep_basic_eq] at h
      injection h with h2
      injection h2 with hI _
      rw [← hI]
      intro hc
      rcases Finset.mem_union.mp hc with hc1 | hc2
      · exact hkI hc1
      · exact ((mem_newInputKeys k _ P).mp hc2).2 hkP
  | sched ed =>
      rcases geikStep_sched_ok_shape ed I P I2 P2 h with ⟨hI, _⟩
      rw [hI]
      intro hc
      rcases Finset.mem_union.mp hc with hc1 | hc2
      · exact hkI hc1
      · rcases (mem_schedNewInputs ed P k).mp hc2 with ⟨v, _, _, hnP⟩
        exact hnP hkP

lemma geikFold_mono (ops : List NetOp) : ∀ I P I2 P2,
    geikFold ops (I, P) = .ok (I2, P2) → I ⊆ I2 ∧ P ⊆ P2 := by
  induction ops with
  | nil =>
      intro I P I2 P2 h
      simp only [geikFold] at h
      injection h with h2
      injection h2 with hI hP
      rw [hI, hP]
      exact ⟨Finset.Subset.refl _, Finset.Subset.refl _⟩
  | cons nop rest ih =>
      intro I P I2 P2 h
      simp only [geikFold] at h
      rcases hstep : geikStep (I, P) nop with e | st2
      · rw [hstep] at h; cases h
      · rw [hstep] at h
        rcases st2 with ⟨Ia, Pa⟩
        rcases geikStep_mono nop I P Ia Pa hstep with ⟨h1, h2⟩
        rcases ih Ia Pa I2 P2 h with ⟨h3, h4⟩
        exact ⟨h1.trans h3, h2.trans h4⟩

lemma geikFold_excl (ops : List NetOp) : ∀ (k : Key) I P I2 P2,
    k ∈ P → k ∉ I → geikFold ops (I, P) = .ok (I2, P2) → k ∉ I2 ∧ k ∈ P2 := by
  induction ops with
  | nil =>
      intro k I P I2 P2 hkP hkI h
      simp only [geikFold] at h
      injection h with h2
      injection h2 with hI hP
      rw [← hI, ← hP]
      exact ⟨hkI, hkP⟩
  | cons nop rest ih =>
      intro k I P I2 P2 hkP hkI h
      simp only [geikFold] at h
      rcases hstep : geikStep (I, P) nop with e | st2
      · rw [hstep] at h; cases h
      · rw [hstep] at h
        rcases st2 with ⟨Ia, Pa⟩
        rcases geikStep_excl nop k I P Ia Pa hkP hkI hstep with ⟨h1, h2⟩
        exact ih k Ia Pa I2 P2 h2 h1 h

lemma geikFold_append (a b : List NetOp) (st : Finset Key × Finset Key) :
    geikFold (a ++ b) st =
      match geikFold a st with
      | .error e => .error e
      | .ok st2 => geikFold b st2 := by
  induction a generalizing st with
  | nil => simp [geikFold]
  | cons nop rest ih =>
      simp only [List.cons_append, geikFold]
      rcases hstep : geikStep st nop with e | st2
      · rfl
      · exact ih st2

/-! ## Characterization of the analyzer on Scheduler-free op lists -/

lemma geikFold_basics (ops : List TensorOp) : ∀ I P,
    geikFold (ops.map NetOp.basic) (I, P) = .ok (I ∪ effAux ops P, prodAux ops P) := by
  induction ops with
  | nil =>
      intro I P
      simp [geikFold, effAux, prodAux]
  | cons op rest ih =>
      intro I P
      simp only [List.map_cons, geikFold, geikStep_basic_eq]
      rw [ih, effAux, prodAux, Finset.union_assoc]

lemma mem_effAux (k : Key) : ∀ (ops : List TensorOp) (P : Finset Key),
    k ∈ effAux ops P ↔
      ∃ front op post, ops = front ++ op :: post ∧ k ∈ to_list op.inputs ∧
        k ∉ P ∧ ∀ q ∈ front, k ∉ to_list q.outputs := by
  intro ops
  induction ops with
  | nil =>
      intro P
      simp only [effAux, Finset.not_mem_empty, false_iff]
      rintro ⟨front, op, post, habs, -⟩
      cases front <;> simp at habs
  | cons o rest ih =>
      intro P
      simp only [effAux, Finset.mem_union, mem_newInputKeys]
      rw [ih]
      constructor
      · rintro (⟨hin, hP⟩ | ⟨front, op, post, hsplit, hin, hP, hfront⟩)
        · exact ⟨[], o, rest, rfl, hin, hP, by intro q hq; cases hq⟩
        · have hPP : k ∉ P := fun hc => hP (Finset.mem_union_left _ hc)
          have hO : k ∉ to_list o.outputs := fun hc =>
            hP (Finset.mem_union_right _ (List.mem_toFinset.mpr hc))
          refine ⟨o :: front, op, post, by rw [hsplit]; rfl, hin, hPP, ?_⟩
          intro q hq
          rcases List.mem_cons.mp hq with rfl | hq2
          · exact hO
          · exact hfront q hq2
      · rintro ⟨front, op, post, hsplit, hin, hP, hfront⟩
        cases front with
        | nil =>
            rw [List.nil_append] at hsplit
            injection hsplit with h1 h2
            subst h1
            subst h2
            exact Or.inl ⟨hin, hP⟩
        | cons f fs =>
            rw [List.cons_append] at hsplit
            injection hsplit with h1 h2
            subst h1
            refine Or.inr ⟨fs, op, post, h2, hin, ?_, ?_⟩
            · intro hc
              rcases Finset.mem_union.mp hc with hc1 | hc2
              · exact hP hc1
              · exact hfront o (List.mem_cons_self o fs) (List.mem_toFinset.mp hc2)
            · intro q hq
              exact hfront q (List.mem_cons_of_mem o hq)

/-- C1. For an op list with no Schedulers, `get_effective_input_keys`
returns exactly the declared input keys not produced as an output by any
earlier op in declaration order, with the `None` sentinel removed. -/
theorem effective_input_keys_no_scheduler (ops : List TensorOp) :
    ∃ s, get_effective_input_keys (ops.map NetOp.basic) = .ok s ∧
      ∀ k : Key, k ∈ s ↔
        (k ≠ none ∧ ∃ front op post, ops = front ++ op :: post ∧
          k ∈ to_list op.inputs ∧ ∀ q ∈ front, k ∉ to_list q.outputs) := by
  refine ⟨effAux ops ∅ \ {none}, ?_, ?_⟩
  · rw [get_effective_input_keys, geikFold_basics ops ∅ ∅, Finset.empty_union]
  · intro k
    rw [Finset.mem_sdiff, Finset.mem_singleton, mem_effAux]
    constructor
    · rintro ⟨⟨front, op, post, hsplit, hin, -, hfront⟩, hnone⟩
      exact ⟨hnone, front, op, post, hsplit, hin, hfront⟩
    · rintro ⟨hnone, front, op, post, hsplit, hin, hfront⟩
      exact ⟨⟨front, op, post, hsplit, hin, Finset.not_mem_empty k, hfront⟩, hnone⟩

lemma geik_ok_split (ops : List NetOp) (res : Finset Key)
    (h : get_effective_input_keys ops = .ok res) :
    ∃ fin : Finset Key × Finset Key,
      geikFold ops (∅, ∅) = .ok fin ∧ res = fin.1 \ {none} := by
  revert h
  rw [get_effective_input_keys]
  rcases hf : geikFold ops (∅, ∅) with e | fin
  · intro h; cases h
  · intro h
    injection h with h2
    exact ⟨fin, rfl, h2.symm⟩

lemma geikFold_cons_ok (nop : NetOp) (rest : List NetOp)
    (st st1 : Finset Key × Finset Key) (h : geikStep st nop = .ok st1) :
    geikFold (nop :: rest) st = geikFold rest st1 := by
  simp [geikFold, h]

lemma geikFold_prepend (front rest : List NetOp) (st stf : Finset Key × Finset Key)
    (h : geikFold front st = .ok stf) :
    geikFold (front ++ rest) st = geikFold rest stf := by
  rw [geikFold_append, h]

/-- C2. A Scheduler whose non-none epoch-variants all declare the same
output-key list adds those keys to the produced set, excluding them from
the effective inputs contributed by any later op; if the epoch-variants
disagree on outputs, the produced set is unchanged, so a later op whose
input depends on such an output key keeps that key in the effective-input
set. The state `(I, P)` before the Scheduler is any state the analyzer
reached on the ops in front of it. -/
theorem scheduler_output_tracking (front : List NetOp)
    (ed : List (Option TensorOp)) (I P : Finset Key)
    (hfront : geikFold front (∅, ∅) = .ok (I, P)) :
    (∀ (v : TensorOp) (vs : List TensorOp) (l : List Key) (s : String)
        (rest : List NetOp),
      ed.filterMap id = v :: vs →
      (∀ w ∈ ed.filterMap id, w.outputs = PyKeys.pyList l) →
      some s ∈ l → some s ∉ I → some s ∉ schedNewInputs ed P →
      geikStep (I, P) (.sched ed) = .ok (I ∪ schedNewInputs ed P, P ∪ l.toFinset) ∧
      ∀ res, get_effective_input_keys (front ++ .sched ed :: rest) = .ok res →
        some s ∉ res)
    ∧
    (∀ (va vb op : TensorOp) (s : String) (rest2 : List NetOp),
      va ∈ ed.filterMap id → vb ∈ ed.filterMap id → va.outputs ≠ vb.outputs →
      some s ∈ to_list va.outputs →
      some s ∈ to_list op.inputs → some s ∉ P →
      geikStep (I, P) (.sched ed) = .ok (I ∪ schedNewInputs ed P, P) ∧
      ∀ res, get_effective_input_keys (front ++ .sched ed :: .basic op :: rest2) = .ok res →
        some s ∈ res) := by
  constructor
  · intro v vs l s rest hv houts hsl hsI hsN
    have hstep : geikStep (I, P) (.sched ed) =
        .ok (I ∪ schedNewInputs ed P, P ∪ l.toFinset) :=
      geikStep_sched_agree ed I P (P ∪ l.toFinset) v vs (PyKeys.pyList l) hv houts rfl
    refine ⟨hstep, ?_⟩
    intro res hres
    rcases geik_ok_split _ res hres with ⟨fin, hfold, hres2⟩
    rw [geikFold_prepend front _ _ _ hfront,
        geikFold_cons_ok _ _ _ _ hstep] at hfold
    have hkP : some s ∈ P ∪ l.toFinset :=
      Finset.mem_union_right _ (List.mem_toFinset.mpr hsl)
    have hkI : some s ∉ I ∪ schedNewInputs ed P := by
      intro hc
      rcases Finset.mem_union.mp hc with hc1 | hc2
      · exact hsI hc1
      · exact hsN hc2
    rcases fin with ⟨If, Pf⟩
    rcases geikFold_excl rest (some s) _ _ If Pf hkP hkI hfold with ⟨hnI, -⟩
    rw [hres2]
    intro hc
    exact hnI (Finset.mem_sdiff.mp hc).1
  · intro va vb op s rest2 hva hvb hne hsout hsin hsP
    have hstep : geikStep (I, P) (.sched ed) = .ok (I ∪ schedNewInputs ed P, P) :=
      geikStep_sched_disagree ed I P va vb hva hvb hne
    refine ⟨hstep, ?_⟩
    intro res hres
    rcases geik_ok_split _ res hres with ⟨fin, hfold, hres2⟩
    rw [geikFold_prepend front _ _ _ hfront,
        geikFold_cons_ok _ _ _ _ hstep,
        geikFold_cons_ok _ _ _ _ (geikStep_basic_eq op (I ∪ schedNewInputs ed P) P)]
      at hfold
    have hkI2 : some s ∈ (I ∪ schedNewInputs ed P) ∪ newInputKeys (to_list op.inputs) P :=
      Finset.mem_union_right _ ((mem_newInputKeys _ _ _).mpr ⟨hsin, hsP⟩)
    rcases fin with ⟨If, Pf⟩
    have hsub := (geikFold_mono rest2 _ _ If Pf hfold).1
    rw [hres2]
    exact Finset.mem_sdiff.mpr ⟨hsub hkI2, by simp⟩

/-- Witness for C2: a two-variant Scheduler agreeing on the output list
`["y"]` makes a later consumer of `"y"` contribute nothing, while variants
disagreeing on outputs leave `"y"` in the effective-input set. -/
theorem scheduler_output_tracking_witness :
    (geikStep (∅, ∅) (.sched edAgreeW) =
        .ok (∅ ∪ schedNewInputs edAgreeW ∅, ∅ ∪ ([some "y"] : List Key).toFinset)
      ∧ some "y" ∉ ({some "x", some "x2"} : Finset Key))
    ∧ (geikStep (∅, ∅) (.sched edDisW) = .ok (∅ ∪ schedNewInputs edDisW ∅, ∅)
      ∧ some "y" ∈ ({some "x", some "x2", some "y"} : Finset Key)) := by
  constructor
  · have ha := (scheduler_output_tracking [] edAgreeW ∅ ∅ rfl).1
      vAW [vBW] [some "y"] "y" [.basic opCW] rfl (by decide) (by decide)
      (by decide) (by decide)
    exact ⟨ha.1, ha.2 {some "x", some "x2"} (by decide)⟩
  · have hb := (scheduler_output_tracking [] edDisW ∅ ∅ rfl).2
      vAW vDW opCW "y" []
      (by exact List.mem_cons_self _ _)
      (by exact List.mem_cons_of_mem _ (List.mem_cons_self _ _))
      (by decide) (by decide) (by decide) (by decide)
    exact ⟨hb.1, hb.2 {some "x", some "x2", some "y"} (by decide)⟩

/-- C9. A Scheduler whose `epoch_dict` values are all `None` makes
`get_effective_input_keys` fail with the `IndexError` of `keys_lists[0]`
(the all-equal check over the empty list being vacuously true), so
`Network` construction never succeeds on such an op list. -/
theorem all_none_scheduler_index_error (front : List NetOp)
    (ed : List (Option TensorOp)) (rest : List NetOp) (I P : Finset Key)
    (hfront : geikFold front (∅, ∅) = .ok (I, P))
    (hnone : ∀ x ∈ ed, x = none) :
    get_effective_input_keys (front ++ .sched ed :: rest) = .error indexErrorMsg
    ∧ ∀ inst, Network (front ++ .sched ed :: rest) ≠ .ok inst := by
  have hfm : ed.filterMap id = [] := by
    rw [List.filterMap_eq_nil_iff]
    intro a ha
    simpa using hnone a ha
  have hstep : geikStep (I, P) (.sched ed) = .error indexErrorMsg :=
    geikStep_sched_empty ed I P hfm
  have hfold : geikFold (front ++ .sched ed :: rest) (∅, ∅) = .error indexErrorMsg := by
    rw [geikFold_prepend front _ _ _ hfront]
    simp [geikFold, hstep]
  have hgeik : get_effective_input_keys (front ++ .sched ed :: rest) =
      .error indexErrorMsg := by
    rw [get_effective_input_keys, hfold]
  refine ⟨hgeik, ?_⟩
  intro inst
  rw [Network]
  by_cases hm : collectModels (front ++ .sched ed :: rest) = ∅
  · simp [hm]
  · simp only [hm, if_false]
    by_cases hfw : (frameworks (collectModels (front ++ .sched ed :: rest))).card = 1
    · simp only [hfw, if_true, hgeik]
      intro hc
      cases hc
    · simp [hfw]

/-- Witness for C9: the op list `[Scheduler {0: None, 1: None}]` makes the
analyzer raise `IndexError` and `Network` construction fail. -/
theorem all_none_scheduler_index_error_witness :
    get_effective_input_keys [.sched [none, none]] = .error indexErrorMsg
    ∧ ∀ inst, Network [.sched [none, none]] ≠ .ok inst := by
  have hnone : ∀ x ∈ ([none, none] : List (Option TensorOp)), x = none := by
    intro x hx
    rcases List.mem_cons.mp hx with rfl | hx2
    · rfl
    · rcases List.mem_cons.mp hx2 with rfl | hx3
      · rfl
      · cases hx3
  exact all_none_scheduler_index_error [] [none, none] [] ∅ ∅ rfl hnone

/-- C10. A Scheduler whose non-none epoch-variants all declare the same
plain-string output key of length greater than one has that string's
individual characters — not the key itself — added to the produced set
(there is no `to_list` normalisation on the Scheduler output path), so a
later op consuming the key still counts it among the effective inputs. -/
theorem scheduler_string_outputs_not_normalised (front : List NetOp)
    (ed : List (Option TensorOp)) (v : TensorOp) (vs : List TensorOp)
    (s : String) (op : TensorOp) (rest2 : List NetOp) (I P : Finset Key)
    (hfront : geikFold front (∅, ∅) = .ok (I, P))
    (hv : ed.filterMap id = v :: vs)
    (houts : ∀ w ∈ ed.filterMap id, w.outputs = PyKeys.pyStr s)
    (hlen : 1 < s.length)
    (hin : some s ∈ to_list op.inputs)
    (hP : some s ∉ P) :
    geikStep (I, P) (.sched ed) =
      .ok (I ∪ schedNewInputs ed P, P ∪ (charKeys s).toFinset)
    ∧ some s ∉ (charKeys s).toFinset
    ∧ ∀ res,
        get_effective_input_keys (front ++ .sched ed :: .basic op :: rest2) = .ok res →
        some s ∈ res := by
  have hstep : geikStep (I, P) (.sched ed) =
      .ok (I ∪ schedNewInputs ed P, P ∪ (charKeys s).toFinset) :=
    geikStep_sched_agree ed I P (P ∪ (charKeys s).toFinset) v vs (PyKeys.pyStr s)
      hv houts rfl
  have hchar : some s ∉ (charKeys s).toFinset := by
    intro hc
    rcases List.mem_map.mp (List.mem_toFinset.mp hc) with ⟨c, -, hc2⟩
    have hs : s = String.mk [c] := Option.some.inj hc2.symm
    have hone : (String.mk [c]).length = 1 := rfl
    rw [hs, hone] at hlen
    exact Nat.lt_irrefl 1 hlen
  refine ⟨hstep, hchar, ?_⟩
  intro res hres
  rcases geik_ok_split _ res hres with ⟨fin, hfold, hres2⟩
  rw [geikFold_prepend front _ _ _ hfront,
      geikFold_cons_ok _ _ _ _ hstep,
      geikFold_cons_ok _ _ _ _
        (geikStep_basic_eq op (I ∪ schedNewInputs ed P) (P ∪ (charKeys s).toFinset))]
    at hfold
  have hP1 : some s ∉ P ∪ (charKeys s).toFinset := by
    intro hc
    rcases Finset.mem_union.mp hc with hc1 | hc2
    · exact hP hc1
    · exact hchar hc2
  have hkI2 : some s ∈ (I ∪ schedNewInputs ed P) ∪
      newInputKeys (to_list op.inputs) (P ∪ (charKeys s).toFinset) :=
    Finset.mem_union_right _ ((mem_newInputKeys _ _ _).mpr ⟨hin, hP1⟩)
  rcases fin with ⟨If, Pf⟩
  have hsub := (geikFold_mono rest2 _ _ If Pf hfold).1
  rw [hres2]
  exact Finset.mem_sdiff.mpr ⟨hsub hkI2, by simp⟩

/-- Witness for C10: both epoch-variants declare the plain string `"ab"`
as outputs; the produced set receives `"a"` and `"b"`, and a later op
consuming `"ab"` keeps `"ab"` in the effective-input set. -/
theorem scheduler_string_outputs_not_normalised_witness :
    geikStep (∅, ∅) (.sched edStrW) =
      .ok (∅ ∪ schedNewInputs edStrW ∅, ∅ ∪ (charKeys "ab").toFinset)
    ∧ some "ab" ∉ (charKeys "ab").toFinset
    ∧ some "ab" ∈ ({some "ab"} : Finset Key) := by
  have h := scheduler_string_outputs_not_normalised [] edStrW vS1W [vS2W] "ab"
    opAbW [] ∅ ∅ rfl rfl (by decide) (by decide) (by decide) (by decide)
  exact ⟨h.1, h.2.1, h.2.2 {some "ab"} (by decide)⟩

/-- C7. `Network(ops)` fails when no trainable model is found in the op
list, and fails when the models found span both backends; in either case
no instance is produced. -/
theorem network_construction_failures (ops : List NetOp) :
    (collectModels ops = ∅ → Network ops = .error noModelMsg)
    ∧ (∀ m1 m2, m1 ∈ collectModels ops → m2 ∈ collectModels ops →
        m1.backend = ModelBackend.tensorflow → m2.backend = ModelBackend.pytorch →
        Network ops = .error mixedFrameworkMsg) := by
  constructor
  · intro hm
    simp [Network, hm]
  · intro m1 m2 h1 h2 hb1 hb2
    have hne : ¬ collectModels ops = ∅ := by
      intro hc
      rw [hc] at h1
      exact Finset.not_mem_empty m1 h1
    have htf : ModelBackend.tensorflow ∈ frameworks (collectModels ops) := by
      rw [frameworks, Finset.mem_filter]
      exact ⟨Finset.mem_image.mpr ⟨m1, h1, hb1⟩, by decide⟩
    have hpt : ModelBackend.pytorch ∈ frameworks (collectModels ops) := by
      rw [frameworks, Finset.mem_filter]
      exact ⟨Finset.mem_image.mpr ⟨m2, h2, hb2⟩, by decide⟩
    have hcard : ¬ (frameworks (collectModels ops)).card = 1 := by
      intro hc
      have hsub : ({ModelBackend.tensorflow, ModelBackend.pytorch} :
          Finset ModelBackend) ⊆ frameworks (collectModels ops) := by
        intro b hb
        rcases Finset.mem_insert.mp hb with rfl | hb2
        · exact htf
        · rw [Finset.mem_singleton.mp hb2]
          exact hpt
      have h2le : 2 ≤ (frameworks (collectModels ops)).card := by
        have hpair : ({ModelBackend.tensorflow, ModelBackend.pytorch} :
            Finset ModelBackend).card = 2 := by decide
        rw [← hpair]
        exact Finset.card_le_card hsub
      rw [hc] at h2le
      exact absurd h2le (by decide)
    simp [Network, hne, hcard]

/-- Witness for C7: an op list with no `ModelOp`/`UpdateOp` fails with the
no-model assert; an op list with one tensorflow and one pytorch model
fails with the mixed-framework assert. -/
theorem network_construction_failures_witness :
    Network [.basic opNoModelW] = .error noModelMsg
    ∧ Network [.basic opMTFW, .basic opMPTW] = .error mixedFrameworkMsg := by
  constructor
  · exact (network_construction_failures [.basic opNoModelW]).1 (by decide)
  · exact (network_construction_failures [.basic opMTFW, .basic opMPTW]).2
      mTFW mPTW (by decide) (by decide) rfl rfl

lemma fe_compile_ok_fields (m : BuildModel) (o : OptimArg) (m2 : BuildModel)
    (h : _fe_compile m o = .ok m2) :
    m2.fe_compiled = true ∧ m2.optimizer.isSome = true := by
  rcases m with ⟨mb, mo, mc⟩
  rcases o with s | oi
  · cases mb
    case tensorflow =>
        by_cases hs : s ∈ optimizerRegistry
        · have heq : _fe_compile ⟨ModelBackend.tensorflow, mo, mc⟩ (.byName s) =
              .ok ⟨ModelBackend.tensorflow, some (.tfOpt s), true⟩ := by
            simp [_fe_compile, hs]
          rw [heq] at h
          injection h with h2
          rw [← h2]
          exact ⟨rfl, rfl⟩
        · have heq : _fe_compile ⟨ModelBackend.tensorflow, mo, mc⟩ (.byName s) =
              .error keyErrorMsg := by
            simp [_fe_compile, hs]
          rw [heq] at h
          cases h
    case pytorch =>
        by_cases hs : s ∈ optimizerRegistry
        · have heq : _fe_compile ⟨ModelBackend.pytorch, mo, mc⟩ (.byName s) =
              .ok ⟨ModelBackend.pytorch, some (.torchOpt s), true⟩ := by
            simp [_fe_compile, hs]
          rw [heq] at h
          injection h with h2
          rw [← h2]
          exact ⟨rfl, rfl⟩
        · have heq : _fe_compile ⟨ModelBackend.pytorch, mo, mc⟩ (.byName s) =
              .error keyErrorMsg := by
            simp [_fe_compile, hs]
          rw [heq] at h
          cases h
    case other =>
        have heq : _fe_compile ⟨ModelBackend.other, mo, mc⟩ (.byName s) =
            .error unrecognizedModelMsg := rfl
        rw [heq] at h
        cases h
  · rcases oi with n | n
    · cases mb
      case tensorflow =>
          injection h with h2
          rw [← h2]
          exact ⟨rfl, rfl⟩
      case pytorch => cases h
      case other => cases h
    · cases mb
      case tensorflow => cases h
      case pytorch =>
          injection h with h2
          rw [← h2]
          exact ⟨rfl, rfl⟩
      case other => cases h

lemma mismatch_fe_compile_error (m : BuildModel) (o : OptimArg)
    (hmm : mismatch m o = true) : ∃ e, _fe_compile m o = .error e := by
  rcases m with ⟨mb, mo, mc⟩
  rcases o with s | oi
  · cases mb <;> simp [mismatch] at hmm
  · rcases oi with n | n
    · cases mb
      case tensorflow => simp [mismatch] at hmm
      case pytorch => exact ⟨torchOptAssertMsg, rfl⟩
      case other => simp [mismatch] at hmm
    · cases mb
      case tensorflow => exact ⟨tfOptAssertMsg, rfl⟩
      case pytorch => simp [mismatch] at hmm
      case other => simp [mismatch] at hmm

lemma buildLoop_fail_after :
    ∀ (front : List BuildModel) (ofront : List OptimArg)
      (m : BuildModel) (o : OptimArg) (rest : List BuildModel) (orest : List OptimArg),
    front.length = ofront.length →
    (∀ p ∈ front.zip ofront, exceptIsOk (_fe_compile p.1 p.2) = true) →
    mismatch m o = true →
    ∃ front2 e,
      buildLoop (front ++ m :: rest) (ofront ++ o :: orest) = (front2 ++ m :: rest, some e)
      ∧ front2.length = front.length
      ∧ ∀ q ∈ front2, q.fe_compiled = true ∧ q.optimizer.isSome = true := by
  intro front
  induction front with
  | nil =>
      intro ofront m o rest orest hlen hok hmm
      cases ofront with
      | cons a b => simp at hlen
      | nil =>
          rcases mismatch_fe_compile_error m o hmm with ⟨e, he⟩
          refine ⟨[], e, ?_, rfl, by intro q hq; cases hq⟩
          simp only [List.nil_append, buildLoop, he]
  | cons f fs ih =>
      intro ofront m o rest orest hlen hok hmm
      cases ofront with
      | nil => simp at hlen
      | cons of ofs =>
          have hokf := hok (f, of)
            (by rw [List.zip_cons_cons]; exact List.mem_cons_self _ _)
          rcases hcf : _fe_compile f of with e | f2
          · rw [hcf] at hokf
            cases hokf
          · have hok2 : ∀ p ∈ fs.zip ofs, exceptIsOk (_fe_compile p.1 p.2) = true := by
              intro p hp
              exact hok p (by rw [List.zip_cons_cons]; exact List.mem_cons_of_mem _ hp)
            rcases ih ofs m o rest orest (by simpa using hlen) hok2 hmm with
              ⟨front2, e, heq, hlen2, hcomp⟩
            refine ⟨f2 :: front2, e, ?_, by simp [hlen2], ?_⟩
            · simp only [List.cons_append, buildLoop, hcf, List.append_eq, heq]
            · intro q hq
              rcases List.mem_cons.mp hq with rfl | hq2
              · exact fe_compile_ok_fields f of q hcf
              · exact hcomp q hq2

/-- C8 (amended). When a model is paired with an optimizer instance of the
other backend, `build` fails, the failing model and all models after it
are returned unmutated, and every model before the failing pair has
already been mutated (optimizer attached, compiled flag set) at the time
of failure. -/
theorem build_mismatch_partial (front rest : List BuildModel)
    (ofront orest : List OptimArg) (m : BuildModel) (o : OptimArg)
    (hlen : (front ++ m :: rest).length = (ofront ++ o :: orest).length)
    (hflen : front.length = ofront.length)
    (hok : ∀ p ∈ front.zip ofront, exceptIsOk (_fe_compile p.1 p.2) = true)
    (hmm : mismatch m o = true) :
    ∃ front2 e,
      build (front ++ m :: rest) (ofront ++ o :: orest) = (front2 ++ m :: rest, some e)
      ∧ front2.length = front.length
      ∧ ∀ q ∈ front2, q.fe_compiled = true ∧ q.optimizer.isSome = true := by
  rw [build, if_pos hlen]
  exact buildLoop_fail_after front ofront m o rest orest hflen hok hmm

/-- Witness for C8 (amended): a good tensorflow pair followed by a pytorch
model paired with a tensorflow optimizer instance. -/
theorem build_mismatch_partial_witness :
    ∃ front2 e,
      build ([tfModelW] ++ ptModelW :: []) ([.byInst (.tfOpt "adam")] ++ .byInst (.tfOpt "sgd") :: []) =
        (front2 ++ ptModelW :: [], some e)
      ∧ front2.length = [tfModelW].length
      ∧ ∀ q ∈ front2, q.fe_compiled = true ∧ q.optimizer.isSome = true :=
  build_mismatch_partial [tfModelW] [] [.byInst (.tfOpt "adam")] []
    ptModelW (.byInst (.tfOpt "sgd")) rfl rfl (by decide) (by decide)

/-- Counterexample to C8 as stated: in
`build([tf_model, torch_model], [tf_opt, tf_opt])` the second pair is
backend-mismatched and registration fails, yet at the time of failure the
first model has already been mutated (optimizer attached, compiled flag
set). -/
theorem build_mismatch_counterexample :
    (build [tfModelW, ptModelW] [.byInst (.tfOpt "adam"), .byInst (.tfOpt "adam")]).2 =
      some torchOptAssertMsg
    ∧ mismatch ptModelW (.byInst (.tfOpt "adam")) = true
    ∧ (build [tfModelW, ptModelW] [.byInst (.tfOpt "adam"), .byInst (.tfOpt "adam")]).1.head? =
      some ⟨ModelBackend.tensorflow, some (.tfOpt "adam"), true⟩ := by
  decide

/-! ## Lemmas about per-batch execution -/

lemma extract_fold_eq (get : Key → Option PyData) (post : PyData → PyData) :
    ∀ (eo : List Key) (acc : PyDict) (k : Key),
      (eo.foldl (fun pred k2 =>
        match get k2 with
        | some v => pred.insert k2 (post v)
        | none => pred) acc) k =
      if k ∈ eo ∧ (get k).isSome = true then (get k).map post else acc k := by
  intro eo
  induction eo with
  | nil =>
      intro acc k
      simp
  | cons h t ih =>
      intro acc k
      simp only [List.foldl_cons]
      rw [ih]
      by_cases hk : k ∈ t ∧ (get k).isSome = true
      · rw [if_pos hk, if_pos ⟨List.mem_cons_of_mem h hk.1, hk.2⟩]
      · rw [if_neg hk]
        rcases hg : get h with _ | v
        · dsimp only
          by_cases hkh : k ∈ h :: t ∧ (get k).isSome = true
          · rcases hkh with ⟨hm, hsome⟩
            rcases List.mem_cons.mp hm with rfl | hkt
            · rw [hg] at hsome
              cases hsome
            · exact absurd ⟨hkt, hsome⟩ hk
          · rw [if_neg hkh]
        · dsimp only
          by_cases hkh : k = h
          · subst hkh
            have hc : k ∈ k :: t ∧ (get k).isSome = true :=
              ⟨List.mem_cons_self _ _, by rw [hg]; rfl⟩
            rw [if_pos hc, hg]
            simp [PyDict.insert]
          · have hcond : ¬ (k ∈ h :: t ∧ (get k).isSome = true) := by
              rintro ⟨hm, hs⟩
              rcases List.mem_cons.mp hm with rfl | hkt
              · exact hkh rfl
              · exact hk ⟨hkt, hs⟩
            rw [if_neg hcond]
            simp [PyDict.insert, hkh]

lemma extractWith_eq (get : Key → Option PyData) (eo : List Key)
    (post : PyData → PyData) (k : Key) :
    extractWith get eo post k =
      if k ∈ eo ∧ (get k).isSome = true then (get k).map post else none :=
  extract_fold_eq get post eo emptyDict k

lemma extractWith_isSome (get : Key → Option PyData) (eo : List Key)
    (post : PyData → PyData) (k : Key) :
    (extractWith get eo post k).isSome = true ↔ k ∈ eo ∧ (get k).isSome = true := by
  rw [extractWith_eq]
  by_cases hc : k ∈ eo ∧ (get k).isSome = true
  · rw [if_pos hc]
    simp [hc.1, hc.2, Option.isSome_map]
  · rw [if_neg hc]
    simp [hc]

lemma foldl_insert_base : ∀ (l : List (Key × PyData)) (cm : CM),
    (l.foldl (fun c p => c.insert p.1 p.2) cm).base = cm.base := by
  intro l
  induction l with
  | nil => intro cm; rfl
  | cons p t ih => intro cm; rw [List.foldl_cons, ih]; rfl

lemma write_outputs_base (cm cm2 : CM) (d : PyData) (keys : PyKeys)
    (h : write_outputs_by_key cm d keys = .ok cm2) : cm2.base = cm.base := by
  cases keys with
  | pyNone =>
      injection h with h2
      rw [← h2]
  | pyStr s =>
      injection h with h2
      rw [← h2]
      rfl
  | pyList ks =>
      cases d with
      | plist l =>
          injection h with h2
          rw [← h2]
          exact foldl_insert_base _ cm
      | pyNone => cases h
      | pval n => cases h

lemma forwardBatchAux_base : ∀ (ops : List TensorOp) (cm : CM) (data : PyData)
    (st : PyState) (cm2 : CM),
    forwardBatchAux cm data st ops = .ok cm2 → cm2.base = cm.base := by
  intro ops
  induction ops with
  | nil =>
      intro cm data st cm2 h
      injection h with h2
      rw [← h2]
  | cons op rest ih =>
      intro cm data st cm2 h
      simp only [forwardBatchAux] at h
      by_cases ho : pyTruthy op.outputs = true
      · rw [if_pos ho] at h
        rcases hw : write_outputs_by_key cm (op.forward (get_inputs_by_op op cm data) st) op.outputs with e | b2
        · rw [hw] at h
          cases h
        · rw [hw] at h
          rw [ih b2 _ st cm2 h]
          exact write_outputs_base cm b2 _ _ hw
      · rw [if_neg ho] at h
        exact ih cm _ st cm2 h

lemma forward_batch_base (cm cm2 : CM) (st : PyState) (ops : List TensorOp)
    (h : forward_batch cm st ops = .ok cm2) : cm2.base = cm.base :=
  forwardBatchAux_base ops cm PyData.pyNone st cm2 h

lemma eager_pred_keys (batch : PyDict) (state : PyState) (ops : List TensorOp)
    (eo : List Key) (r : StepResult)
    (h : TFNetwork._forward_step_eager batch state ops eo = .ok r) :
    ∀ k, (r.prediction k).isSome = true ↔ k ∈ eo ∧ (r.workingBatch.get k).isSome = true := by
  simp only [TFNetwork._forward_step_eager] at h
  split at h
  · cases h
  · injection h with h2
    rw [← h2]
    intro k
    exact extractWith_isSome _ eo id k

lemma static_pred_keys (batch : PyDict) (state : PyState) (ops : List TensorOp)
    (eo : List Key) (r : StepResult)
    (h : TFNetwork._forward_step_static batch state ops eo = .ok r) :
    ∀ k, (r.prediction k).isSome = true ↔ k ∈ eo ∧ (r.workingBatch.get k).isSome = true := by
  simp only [TFNetwork._forward_step_static] at h
  split at h
  · cases h
  · injection h with h2
    rw [← h2]
    intro k
    exact extractWith_isSome _ eo id k

lemma torch_pred_keys (batch : PyDict) (state : PyState) (ops : List TensorOp)
    (eo : List Key) (cuda : Bool) (toDev toCpu : PyData → PyData) (r : StepResult)
    (h : TorchNetwork._forward_step batch state ops eo cuda toDev toCpu = .ok r) :
    ∀ k, (r.prediction k).isSome = true ↔ k ∈ eo ∧ (r.workingBatch.get k).isSome = true := by
  simp only [TorchNetwork._forward_step] at h
  split at h
  · cases h
  · injection h with h2
    rw [← h2]
    intro k
    exact extractWith_isSome _ eo _ k

/-- C3. On the same working batch, state and active op list, the compiled
path `_forward_step_static` (with `@tf.function` modelled as
semantics-preserving) produces the same outcome as the eager path
`_forward_step_eager`: identical errors, and on success an identical
prediction mapping, final state and working batch, for any two
enumerations of the effective-output set. -/
theorem static_eager_equivalence (batch : PyDict) (state : PyState)
    (ops : List TensorOp) (e1 e2 : List Key) (h : ∀ k, k ∈ e1 ↔ k ∈ e2) :
    (∀ err, TFNetwork._forward_step_eager batch state ops e1 = .error err ↔
            TFNetwork._forward_step_static batch state ops e2 = .error err)
    ∧ (∀ r1, TFNetwork._forward_step_eager batch state ops e1 = .ok r1 →
        ∃ r2, TFNetwork._forward_step_static batch state ops e2 = .ok r2
          ∧ (∀ k, r1.prediction k = r2.prediction k)
          ∧ r1.state = r2.state ∧ r1.workingBatch = r2.workingBatch) := by
  constructor
  · intro err
    constructor
    · intro h1
      simp only [TFNetwork._forward_step_eager] at h1
      simp only [TFNetwork._forward_step_static]
      split at h1
      · exact h1
      · cases h1
    · intro h1
      simp only [TFNetwork._forward_step_static] at h1
      simp only [TFNetwork._forward_step_eager]
      split at h1
      · exact h1
      · cases h1
  · intro r1 h1
    simp only [TFNetwork._forward_step_eager] at h1
    simp only [TFNetwork._forward_step_static]
    split at h1
    · cases h1
    · injection h1 with h2
      refine ⟨_, rfl, ?_, ?_, ?_⟩
      · intro k
        rw [← h2]
        dsimp only
        rw [extractWith_eq, extractWith_eq]
        simp only [h k]
      · rw [← h2]
      · rw [← h2]

/-- Witness for C3: one op writing `"y"`; the eager and compiled paths
agree error-for-error and produce the same prediction mapping. -/
theorem static_eager_equivalence_witness :
    ((TFNetwork._forward_step_eager emptyDict state0W [opWriteW] [some "y"] = .error "boom") ↔
      (TFNetwork._forward_step_static emptyDict state0W [opWriteW] [some "y"] = .error "boom"))
    ∧ ∃ r2, TFNetwork._forward_step_static emptyDict state0W [opWriteW] [some "y"] = .ok r2
        ∧ (∀ k, (PyDict.insert emptyDict (some "y") (PyData.pval 5)) k = r2.prediction k)
        ∧ (⟨"eval", 0, none⟩ : PyState) = r2.state
        ∧ (⟨PyDict.insert emptyDict (some "y") (PyData.pval 5), emptyDict⟩ : CM) = r2.workingBatch := by
  have h := static_eager_equivalence emptyDict state0W [opWriteW] [some "y"] [some "y"]
    (fun _ => Iff.rfl)
  exact ⟨h.1 "boom",
    h.2 ⟨PyDict.insert emptyDict (some "y") (PyData.pval 5), ⟨"eval", 0, none⟩,
      ⟨PyDict.insert emptyDict (some "y") (PyData.pval 5), emptyDict⟩⟩ rfl⟩

/-- C4. The prediction mapping a `run_step` returns contains exactly the
keys of `effective_outputs` that are present in the working batch after
all active ops have run; a key produced internally but not registered in
`effective_outputs` is absent. Both strategies are covered (TF with either
value of `debug`). -/
theorem run_step_prediction_keys (ops : List NetOp) (ei : Finset Key)
    (eo : List Key) (batch : PyDict) (state : PyState) (cuda : Bool)
    (toDev toCpu : PyData → PyData) (debug : Bool) :
    (∀ r, TorchNetwork.run_step ops ei eo batch state cuda toDev toCpu = .ok r →
      ∀ k, (r.prediction k).isSome = true ↔ k ∈ eo ∧ (r.workingBatch.get k).isSome = true)
    ∧ (∀ r, TFNetwork.run_step ops ei eo batch state debug = .ok r →
      ∀ k, (r.prediction k).isSome = true ↔ k ∈ eo ∧ (r.workingBatch.get k).isSome = true) := by
  constructor
  · intro r h
    exact torch_pred_keys _ _ _ _ _ _ _ r h
  · intro r h
    rw [TFNetwork.run_step] at h
    cases debug with
    | true =>
        rw [if_pos rfl] at h
        exact eager_pred_keys _ _ _ _ r h
    | false =>
        rw [if_neg (by simp)] at h
        exact static_pred_keys _ _ _ _ r h

/-- Witness for C4: an op produces `"y"` internally but only `"z"` is
registered as an effective output, so the prediction contains neither
`"y"` nor anything else. -/
theorem run_step_prediction_keys_witness :
    (∀ k, ((emptyDict : PyDict) k).isSome = true ↔
      k ∈ [some "z"] ∧
        ((CM.mk (PyDict.insert (mkNewBatch ∅ emptyDict) (some "y") (PyData.pval 5))
          emptyDict).get k).isSome = true)
    ∧ (∀ k, ((emptyDict : PyDict) k).isSome = true ↔
      k ∈ [some "z"] ∧
        ((CM.mk (PyDict.insert emptyDict (some "y") (PyData.pval 5))
          (mkNewBatch ∅ emptyDict)).get k).isSome = true) := by
  constructor
  · exact (run_step_prediction_keys [.basic opWriteW] ∅ [some "z"] emptyDict state0W
      false id id true).1
      ⟨emptyDict, ⟨"eval", 0, some TapeVal.nonContext⟩,
        ⟨PyDict.insert (mkNewBatch ∅ emptyDict) (some "y") (PyData.pval 5), emptyDict⟩⟩ rfl
  · exact (run_step_prediction_keys [.basic opWriteW] ∅ [some "z"] emptyDict state0W
      false id id true).2
      ⟨emptyDict, ⟨"eval", 0, none⟩,
        ⟨PyDict.insert emptyDict (some "y") (PyData.pval 5), mkNewBatch ∅ emptyDict⟩⟩ rfl

/-- C5. In the debug/eager path, `TFNetwork.run_step` never mutates the
caller's batch: the working overlay's base is exactly the fresh
effective-input copy of the caller's batch after the ops have run, and
each of its bindings is the caller's original value. -/
theorem tf_run_step_no_caller_mutation (ops : List NetOp) (ei : Finset Key)
    (eo : List Key) (batch : PyDict) (state : PyState)
    (hw : ∃ op ∈ get_ops_by_mode ops state.epoch state.mode, pyTruthy op.outputs = true) :
    ∀ r, TFNetwork.run_step ops ei eo batch state true = .ok r →
      r.workingBatch.base = mkNewBatch ei batch
      ∧ ∀ k, k ∈ ei → r.workingBatch.base k = batch k := by
  intro r h
  rw [TFNetwork.run_step, if_pos rfl] at h
  simp only [TFNetwork._forward_step_eager] at h
  split at h
  · cases h
  · rename_i cm1 heq
    injection h with h2
    have hbase : cm1.base = mkNewBatch ei batch := forward_batch_base _ _ _ _ heq
    rw [← h2]
    refine ⟨hbase, ?_⟩
    intro k hk
    dsimp only
    rw [hbase]
    simp [mkNewBatch, hk]

/-- Witness for C5: an op writes the new key `"y"`; the base of the
working overlay is the untouched effective-input copy of the caller's
batch and still binds `"x"` to the caller's value. -/
theorem tf_run_step_no_caller_mutation_witness :
    (⟨PyDict.insert emptyDict (some "y") (PyData.pval 5),
        mkNewBatch {some "x"} batchXW⟩ : CM).base = mkNewBatch {some "x"} batchXW
    ∧ ∀ k, k ∈ ({some "x"} : Finset Key) →
        (⟨PyDict.insert emptyDict (some "y") (PyData.pval 5),
          mkNewBatch {some "x"} batchXW⟩ : CM).base k = batchXW k := by
  exact tf_run_step_no_caller_mutation [.basic opWriteW] {some "x"} [some "y"]
    batchXW state0W ⟨opWriteW, List.mem_cons_self _ _, rfl⟩
    ⟨PyDict.insert emptyDict (some "y") (PyData.pval 5), ⟨"eval", 0, none⟩,
      ⟨PyDict.insert emptyDict (some "y") (PyData.pval 5), mkNewBatch {some "x"} batchXW⟩⟩ rfl

/-- C6 (amended). The TF paths delete `state["tape"]` before returning, so
the returned state has no tape entry; `TorchNetwork._forward_step` sets
`state["tape"]` to the dummy `NonContext()` and does not remove it, so
after a Torch `run_step` the state retains the tape entry. -/
theorem tape_entry_after_forward_step (batch : PyDict) (state : PyState)
    (ops : List TensorOp) (eo : List Key) (cuda : Bool)
    (toDev toCpu : PyData → PyData) :
    (∀ r, TFNetwork._forward_step_eager batch state ops eo = .ok r → r.state.tape = none)
    ∧ (∀ r, TFNetwork._forward_step_static batch state ops eo = .ok r → r.state.tape = none)
    ∧ (∀ r, TorchNetwork._forward_step batch state ops eo cuda toDev toCpu = .ok r →
        r.state.tape = some TapeVal.nonContext) := by
  refine ⟨?_, ?_, ?_⟩
  · intro r h
    simp only [TFNetwork._forward_step_eager] at h
    split at h
    · cases h
    · injection h with h2
      rw [← h2]
  · intro r h
    simp only [TFNetwork._forward_step_static] at h
    split at h
    · cases h
    · injection h with h2
      rw [← h2]
  · intro r h
    simp only [TorchNetwork._forward_step] at h
    split at h
    · cases h
    · injection h with h2
      rw [← h2]

/-- Witness for C6 (amended): concrete runs of the three forward-step
paths, with the tape entry absent after the TF paths and still present
after the Torch path. -/
theorem tape_entry_after_forward_step_witness :
    ((⟨"eval", 0, none⟩ : PyState).tape = none)
    ∧ ((⟨"eval", 0, none⟩ : PyState).tape = none)
    ∧ ((⟨"eval", 0, some TapeVal.nonContext⟩ : PyState).tape = some TapeVal.nonContext) := by
  have h := tape_entry_after_forward_step emptyDict state0W [opWriteW] [] false id id
  exact ⟨h.1 ⟨emptyDict, ⟨"eval", 0, none⟩,
      ⟨PyDict.insert emptyDict (some "y") (PyData.pval 5), emptyDict⟩⟩ rfl,
    h.2.1 ⟨emptyDict, ⟨"eval", 0, none⟩,
      ⟨PyDict.insert emptyDict (some "y") (PyData.pval 5), emptyDict⟩⟩ rfl,
    h.2.2 ⟨emptyDict, ⟨"eval", 0, some TapeVal.nonContext⟩,
      ⟨PyDict.insert emptyDict (some "y") (PyData.pval 5), emptyDict⟩⟩ rfl⟩

/-- Counterexample to C6 as stated: a `TorchNetwork.run_step` call enters
with no tape entry in `state`, attaches one under `"tape"`, and returns
with the entry still present. -/
theorem torch_tape_not_removed_counterexample :
    state0W.tape = none
    ∧ stateTapeOf (TorchNetwork.run_step [.basic opWriteW] ∅ [] emptyDict state0W
        false id id) = some TapeVal.nonContext :=
  ⟨rfl, rfl⟩
